import Mathlib

/-
Verification of the redilock distributed-lock specification.

The repository ships a demo script (examples/sync.py) that drives the public
API `lock(name, ttl, wait)` / `unlock(name, token)` of a distributed lock
backed by a key-value store with atomic conditional operations and expiry.
The LockManager and TokenGenerator themselves are modelled here from the
specification, as a shallow embedding over an explicit state: an in-memory
store of live `(key, token, expires_at)` records plus a logical clock, a
token-generator counter and a backend-attempt counter.

Time is measured in milliseconds; the public API takes durations in seconds
(the demo passes 300, 5 and 1), and the fixed polling interval is 100 ms as
the spec's "100 ms class" interval.
-/

namespace Redilock

/-- Python-level values returned by the public API, as far as the demo
observes them: the booleans, None, and strings (ownership tokens). -/
inductive PyValue
  | pyFalse
  | pyTrue
  | pyNone
  | pyStr (s : String)
deriving DecidableEq, Repr

/-- Python truthiness for the values above: booleans are themselves, None is
falsy, a string is truthy exactly when it is nonempty. -/
def truthy : PyValue → Bool
  | .pyFalse => false
  | .pyTrue => true
  | .pyNone => false
  | .pyStr s => !(s == "")

/-- Modelled from the spec: the backend key-value store state. The lock
record is conceptually `\x7bname → token, expires_at\x7d`, materialized as a
single key-value entry with a backend-enforced time-to-live; we keep the
live records as a list of `(key, token, expires_at)` triples. -/
abbrev Store := List (String × String × Nat)

/-- Modelled from the spec: reading the backend's current value for a key.
An entry is visible only while unexpired (`now < expires_at`); the backend
implicitly destroys a record when its TTL elapses. -/
def lookupLive (s : Store) (k : String) (now : Nat) : Option String :=
  match s.find? (fun e => e.1 == k && decide (now < e.2.2)) with
  | some e => some e.2.1
  | none => none

/-- Modelled from the spec: the backend capability
`SET-IF-ABSENT(key, value, ttl) → bool` — atomically creates `key=value`
with auto-expiry after `ttl`, returning whether it was created (false if the
key is already present and unexpired). Creation drops stale records for the
key. -/
def setIfAbsent (s : Store) (k v : String) (ttl now : Nat) : Bool × Store :=
  match lookupLive s k now with
  | some _ => (false, s)
  | none => (true, (k, v, now + ttl) :: s.filter (fun e => !(e.1 == k)))

/-- Modelled from the spec: the backend capability
`COMPARE-AND-DELETE(key, expected_value) → bool` — atomically deletes `key`
only if its current (unexpired) value equals `expected_value`; returns
whether deletion occurred. -/
def compareAndDelete (s : Store) (k expected : String) (now : Nat) : Bool × Store :=
  match lookupLive s k now with
  | some v =>
    if v == expected then (true, s.filter (fun e => !(e.1 == k)))
    else (false, s)
  | none => (false, s)

/-- Modelled from the spec: TokenGenerator's `generate() → Token`. Tokens
are opaque values drawn from a fresh supply (modelled by a counter), a
function of the generator state only — never of the lock name or the clock.
The n-th token is a nonempty string distinct from every other one. -/
def genToken (n : Nat) : String := String.mk (List.replicate (n + 1) 't')

/-- The state threaded through the lock manager: the shared backend store,
the wall clock (ms), the token-generator counter, and a count of backend
create-if-absent operations attempted (for bookkeeping of "one attempt"). -/
structure LockState where
  store : Store
  now : Nat
  ctr : Nat
  attempts : Nat
deriving DecidableEq, Repr

/-- Modelled from the spec: the fixed polling interval between acquisition
retries, a "100 ms class" constant, not adaptive. -/
def pollInterval : Nat := 100

/-- Modelled from the spec: a single acquisition attempt — generate a fresh
token via TokenGenerator, then attempt the atomic "set key=name to token,
only if the key does not already exist, with expiry=ttl" operation. -/
def attempt (name : String) (ttlMs : Nat) (st : LockState) : Option String × LockState :=
  let tok := genToken st.ctr
  let (created, s') := setIfAbsent st.store name tok ttlMs st.now
  (if created then some tok else none,
   { st with store := s', ctr := st.ctr + 1, attempts := st.attempts + 1 })

/-- Modelled from the spec: the caller-selected wait policy, a tagged
variant `\x7bNoWait, Indefinite, BoundedWait(duration)\x7d` rather than the
demo's overloaded `False | True | number` third argument. -/
inductive WaitPolicy
  | noWait
  | indefinite
  | boundedWait (timeoutSec : Nat)
deriving DecidableEq, Repr

/-- Outcome of an acquisition: the ownership token on success; "not
acquired" on contention or timeout; an invalid-argument caller error
(raised, in Python, as an exception); or fuel exhaustion of the model's
unrolling of the retry loop (the call is still polling). -/
inductive LockOutcome
  | ok (tok : String)
  | contention
  | invalidArg
  | outOfFuel
deriving DecidableEq, Repr

/-- Whether an acquisition outcome is a success carrying a token. -/
def isOk : LockOutcome → Bool
  | .ok _ => true
  | _ => false

/-- Modelled from the spec: the polling retry loop of `acquire`. Each
iteration makes one atomic create-if-absent attempt; on contention it
either aborts once elapsed wall-clock time exceeds the deadline (bounded
wait), or sleeps one polling interval and retries. `fuel` bounds the
unrolling so the indefinite loop stays total in the model. -/
def acquireLoop (name : String) (ttlMs : Nat) (deadline : Option Nat) :
    Nat → LockState → LockOutcome × LockState
  | 0, st => (.outOfFuel, st)
  | fuel + 1, st =>
    match attempt name ttlMs st with
    | (some tok, st') => (.ok tok, st')
    | (none, st') =>
      match deadline with
      | some d =>
        if d < st'.now then (.contention, st')
        else acquireLoop name ttlMs deadline fuel
          { st' with now := st'.now + pollInterval }
      | none => acquireLoop name ttlMs deadline fuel
          { st' with now := st'.now + pollInterval }

/-- Modelled from the spec: `acquire(name, ttl, wait_policy)` (the Python
API calls it `lock`). A non-positive TTL or empty name is a caller error,
rejected synchronously before any backend call. Otherwise: no-wait makes
exactly one attempt; indefinite wait retries forever; bounded wait retries
until elapsed time exceeds the timeout. The public API takes seconds; the
default wait policy is indefinite wait. -/
def lock (fuel : Nat) (st : LockState) (name : String) (ttl : Int)
    (wait : WaitPolicy := .indefinite) : LockOutcome × LockState :=
  if ttl ≤ 0 ∨ name = "" then (.invalidArg, st)
  else
    let ttlMs := 1000 * ttl.toNat
    match wait with
    | .noWait =>
      match attempt name ttlMs st with
      | (some tok, st') => (.ok tok, st')
      | (none, st') => (.contention, st')
    | .indefinite => acquireLoop name ttlMs none fuel st
    | .boundedWait d => acquireLoop name ttlMs (some (st.now + 1000 * d)) fuel st

/-- Modelled from the spec: `release(name, token)` (the Python API calls it
`unlock`) — a single atomic compare-and-delete; `True` exactly when the key
existed, was unexpired and held the matching token. No retry loop. -/
def unlock (st : LockState) (name token : String) : PyValue × LockState :=
  let (deleted, s') := compareAndDelete st.store name token st.now
  ((if deleted then .pyTrue else .pyFalse), { st with store := s' })

/-- The Python-level return value of `lock`: the token string on success,
the boolean `False` on contention or timeout, and no returned value at all
(`none`) when the call raises an invalid-argument exception or is still
polling. -/
def lockPy (fuel : Nat) (st : LockState) (name : String) (ttl : Int)
    (wait : WaitPolicy := .indefinite) : Option PyValue × LockState :=
  match lock fuel st name ttl wait with
  | (.ok tok, st') => (some (.pyStr tok), st')
  | (.contention, st') => (some .pyFalse, st')
  | (.invalidArg, st') => (none, st')
  | (.outOfFuel, st') => (none, st')

/-- N concurrent no-wait acquisitions of the same name at one instant: since
each caller's entire backend interaction is the single atomic
create-if-absent operation, a concurrent execution is an arbitrary
interleaving, i.e. some sequential order of the atomic attempts against the
shared store. Each caller brings its own token-generator state `c`. -/
def runRace (name : String) (ttl : Int) (now : Nat) :
    List Nat → Store → List LockOutcome × Store
  | [], s => ([], s)
  | c :: cs, s =>
    let (r, st') := lock 1 ⟨s, now, c, 0⟩ name ttl .noWait
    let (rs, s') := runRace name ttl now cs st'.store
    (r :: rs, s')

/-- A sequence of `lock` calls threaded through one state: each list element
is `(name, ttl, wait)`. -/
def runLocks (fuel : Nat) : List (String × Int × WaitPolicy) → LockState →
    List LockOutcome × LockState
  | [], st => ([], st)
  | (n, t, w) :: rest, st =>
    let (r, st') := lock fuel st n t w
    let (rs, st'') := runLocks fuel rest st'
    (r :: rs, st'')

/-- The tokens returned by the successful acquisitions of a run, in order. -/
def okTokens : List LockOutcome → List String
  | [] => []
  | .ok t :: rs => t :: okTokens rs
  | .contention :: rs => okTokens rs
  | .invalidArg :: rs => okTokens rs
  | .outOfFuel :: rs => okTokens rs

/-! ### Basic lemmas about tokens and the store -/

theorem genToken_injective : Function.Injective genToken := by
  intro a b h
  have hlen : a + 1 = b + 1 := by
    have := congrArg (fun s => s.data.length) h
    simpa [genToken] using this
  omega

theorem genToken_ne_empty (n : Nat) : genToken n ≠ "" := by
  intro h
  have := congrArg (fun s => s.data.length) h
  simp [genToken] at this

theorem lookupLive_cons_live (k v : String) (e : Nat) (s : Store) (t : Nat)
    (h : t < e) : lookupLive ((k, v, e) :: s) k t = some v := by
  simp [lookupLive, List.find?_cons_of_pos, h]

theorem lookupLive_none_of_no_key (s : Store) (k : String) (t : Nat)
    (h : ∀ x ∈ s, x.1 ≠ k) : lookupLive s k t = none := by
  have : s.find? (fun e => e.1 == k && decide (t < e.2.2)) = none := by
    rw [List.find?_eq_none]
    intro x hx
    simp [h x hx]
  simp [lookupLive, this]

theorem mem_filter_ne_key (s : Store) (k : String) :
    ∀ x ∈ s.filter (fun e => !(e.1 == k)), x.1 ≠ k := by
  intro x hx
  have := (List.mem_filter.mp hx).2
  simpa using this

/-! ### Single-attempt characterization -/

theorem attempt_held (name : String) (ttlMs : Nat) (st : LockState)
    (h : (lookupLive st.store name st.now).isSome = true) :
    attempt name ttlMs st
      = (none, { st with ctr := st.ctr + 1, attempts := st.attempts + 1 }) := by
  obtain ⟨v, hv⟩ := Option.isSome_iff_exists.mp h
  simp [attempt, setIfAbsent, hv]

theorem attempt_free (name : String) (ttlMs : Nat) (st : LockState)
    (h : lookupLive st.store name st.now = none) :
    attempt name ttlMs st
      = (some (genToken st.ctr),
         ⟨(name, genToken st.ctr, st.now + ttlMs)
            :: st.store.filter (fun e => !(e.1 == name)),
          st.now, st.ctr + 1, st.attempts + 1⟩) := by
  simp [attempt, setIfAbsent, h]

theorem attempt_ok_inv (name : String) (ttlMs : Nat) (st st' : LockState)
    (A : String) (h : attempt name ttlMs st = (some A, st')) :
    lookupLive st.store name st.now = none ∧ A = genToken st.ctr ∧
    st' = ⟨(name, A, st.now + ttlMs) :: st.store.filter (fun e => !(e.1 == name)),
           st.now, st.ctr + 1, st.attempts + 1⟩ := by
  cases hl : lookupLive st.store name st.now with
  | none =>
    rw [attempt_free name ttlMs st hl] at h
    injection h with h1 h2
    have h1' : genToken st.ctr = A := Option.some.inj h1
    refine ⟨rfl, h1'.symm, ?_⟩
    rw [← h2, h1']
  | some v =>
    rw [attempt_held name ttlMs st (by simp [hl])] at h
    simp at h

theorem attempt_none_inv (name : String) (ttlMs : Nat) (st st' : LockState)
    (h : attempt name ttlMs st = (none, st')) :
    (lookupLive st.store name st.now).isSome = true ∧
    st' = { st with ctr := st.ctr + 1, attempts := st.attempts + 1 } := by
  cases hl : lookupLive st.store name st.now with
  | none =>
    rw [attempt_free name ttlMs st hl] at h
    simp at h
  | some v =>
    rw [attempt_held name ttlMs st (by simp [hl])] at h
    injection h with h1 h2
    exact ⟨rfl, h2.symm⟩

/-! ### Retry-loop lemmas -/

theorem acquireLoop_ok_inv (name : String) (ttlMs : Nat) (dl : Option Nat) :
    ∀ fuel st A st', acquireLoop name ttlMs dl fuel st = (.ok A, st') →
    ∃ c, A = genToken c ∧ st.ctr ≤ c ∧ st'.ctr = c + 1 ∧ st.now ≤ st'.now ∧
      ∃ rest, st'.store = (name, A, st'.now + ttlMs) :: rest ∧
        ∀ x ∈ rest, x.1 ≠ name := by
  intro fuel
  induction fuel with
  | zero =>
    intro st A st' h
    simp [acquireLoop] at h
  | succ n ih =>
    intro st A st' h
    simp only [acquireLoop] at h
    cases ha : attempt name ttlMs st with
    | mk o st1 =>
    rw [ha] at h
    cases o with
    | some tok =>
      obtain ⟨hl, hA, hst1⟩ := attempt_ok_inv name ttlMs st st1 tok ha
      simp only at h
      injection h with hr hs
      injection hr with htok
      subst htok
      subst hs
      subst hst1
      exact ⟨st.ctr, hA, Nat.le_refl _, rfl, Nat.le_refl _, _, rfl,
        mem_filter_ne_key st.store name⟩
    | none =>
      obtain ⟨hheld, hst1⟩ := attempt_none_inv name ttlMs st st1 ha
      cases dl with
      | none =>
        simp only at h
        obtain ⟨c, hA, hc1, hc2, hnow, rest, hstore, hrest⟩ := ih _ _ _ h
        subst hst1
        refine ⟨c, hA, ?_, hc2, ?_, rest, hstore, hrest⟩
        · simp at hc1; omega
        · simp at hnow; omega
      | some d =>
        simp only at h
        split at h
        · simp at h
        · obtain ⟨c, hA, hc1, hc2, hnow, rest, hstore, hrest⟩ := ih _ _ _ h
          subst hst1
          refine ⟨c, hA, ?_, hc2, ?_, rest, hstore, hrest⟩
          · simp at hc1; omega
          · simp at hnow; omega

theorem acquireLoop_ctr_now_mono (name : String) (ttlMs : Nat) (dl : Option Nat) :
    ∀ fuel st, st.ctr ≤ (acquireLoop name ttlMs dl fuel st).2.ctr ∧
      st.now ≤ (acquireLoop name ttlMs dl fuel st).2.now := by
  intro fuel
  induction fuel with
  | zero => intro st; simp [acquireLoop]
  | succ n ih =>
    intro st
    simp only [acquireLoop]
    cases ha : attempt name ttlMs st with
    | mk o st1 =>
    cases o with
    | some tok =>
      obtain ⟨hl, hA, hst1⟩ := attempt_ok_inv name ttlMs st st1 tok ha
      subst hst1
      simp
    | none =>
      obtain ⟨hheld, hst1⟩ := attempt_none_inv name ttlMs st st1 ha
      cases dl with
      | none =>
        have := ih { st1 with now := st1.now + pollInterval }
        subst hst1
        simp only at this ⊢
        omega
      | some d =>
        simp only
        split
        · subst hst1; simp
        · have := ih { st1 with now := st1.now + pollInterval }
          subst hst1
          simp only at this ⊢
          omega

theorem acquireLoop_indefinite_no_contention (name : String) (ttlMs : Nat) :
    ∀ fuel st, (acquireLoop name ttlMs none fuel st).1 ≠ .contention := by
  intro fuel
  induction fuel with
  | zero => intro st; simp [acquireLoop]
  | succ n ih =>
    intro st
    simp only [acquireLoop]
    cases ha : attempt name ttlMs st with
    | mk o st1 =>
    cases o with
    | some tok => simp
    | none => exact ih _

theorem acquireLoop_deadline_contention (name : String) (ttlMs d : Nat) :
    ∀ fuel st,
    (∀ t, t ≤ d + pollInterval → (lookupLive st.store name t).isSome = true) →
    st.now ≤ d + pollInterval → d + pollInterval < st.now + pollInterval * fuel →
    ∃ st', acquireLoop name ttlMs (some d) fuel st = (.contention, st') ∧
      st'.store = st.store ∧ d < st'.now ∧ st'.now ≤ d + pollInterval := by
  intro fuel
  induction fuel with
  | zero =>
    intro st hheld hnow hfuel
    exfalso
    simp only [Nat.mul_zero] at hfuel
    omega
  | succ n ih =>
    intro st hheld hnow hfuel
    simp only [acquireLoop]
    have hatt := attempt_held name ttlMs st (hheld st.now hnow)
    rw [hatt]
    simp only
    by_cases hd : d < st.now
    · rw [if_pos hd]
      exact ⟨_, rfl, rfl, hd, hnow⟩
    · rw [if_neg hd]
      have hrec := ih { st with now := st.now + pollInterval, ctr := st.ctr + 1, attempts := st.attempts + 1 }
      simp only at hrec
      obtain ⟨st', h1, h2, h3, h4⟩ := hrec
        (by intro t ht; exact hheld t ht)
        (by simp only [pollInterval] at hd ⊢; omega)
        (by simp only [pollInterval] at hfuel ⊢; omega)
      exact ⟨st', h1, h2, h3, h4⟩

/-! ### Lemmas about `lock` -/

theorem lock_invalid (fuel : Nat) (st : LockState) (name : String) (ttl : Int)
    (w : WaitPolicy) (h : ttl ≤ 0 ∨ name = "") :
    lock fuel st name ttl w = (.invalidArg, st) := by
  simp [lock, h]

theorem lock_noWait_held (fuel : Nat) (st : LockState) (name : String) (ttl : Int)
    (h1 : 1 ≤ ttl) (h2 : name ≠ "")
    (h : (lookupLive st.store name st.now).isSome = true) :
    lock fuel st name ttl .noWait
      = (.contention, { st with ctr := st.ctr + 1, attempts := st.attempts + 1 }) := by
  have hcond : ¬(ttl ≤ 0 ∨ name = "") := by
    push_neg
    exact ⟨by omega, h2⟩
  simp only [lock, if_neg hcond]
  rw [attempt_held name (1000 * ttl.toNat) st h]

theorem lock_noWait_free (fuel : Nat) (st : LockState) (name : String) (ttl : Int)
    (h1 : 1 ≤ ttl) (h2 : name ≠ "")
    (h : lookupLive st.store name st.now = none) :
    lock fuel st name ttl .noWait
      = (.ok (genToken st.ctr),
         ⟨(name, genToken st.ctr, st.now + 1000 * ttl.toNat)
            :: st.store.filter (fun e => !(e.1 == name)),
          st.now, st.ctr + 1, st.attempts + 1⟩) := by
  have hcond : ¬(ttl ≤ 0 ∨ name = "") := by
    push_neg
    exact ⟨by omega, h2⟩
  simp only [lock, if_neg hcond]
  rw [attempt_free name (1000 * ttl.toNat) st h]

theorem lock_ok_inv (fuel : Nat) (st : LockState) (name : String) (ttl : Int)
    (w : WaitPolicy) (A : String) (st' : LockState)
    (h : lock fuel st name ttl w = (.ok A, st')) :
    1 ≤ ttl ∧ name ≠ "" ∧
    ∃ c, A = genToken c ∧ st.ctr ≤ c ∧ st'.ctr = c + 1 ∧ st.now ≤ st'.now ∧
      ∃ rest, st'.store = (name, A, st'.now + 1000 * ttl.toNat) :: rest ∧
        ∀ x ∈ rest, x.1 ≠ name := by
  by_cases hcond : ttl ≤ 0 ∨ name = ""
  · rw [lock_invalid fuel st name ttl w hcond] at h
    simp at h
  · have hcond' := hcond
    push_neg at hcond'
    refine ⟨by omega, hcond'.2, ?_⟩
    simp only [lock, if_neg hcond] at h
    cases w with
    | noWait =>
      cases ha : attempt name (1000 * ttl.toNat) st with
      | mk o st1 =>
      rw [ha] at h
      cases o with
      | some tok =>
        obtain ⟨hl, hA, hst1⟩ := attempt_ok_inv name (1000 * ttl.toNat) st st1 tok ha
        simp only at h
        injection h with hr hs
        injection hr with htok
        subst htok
        subst hs
        subst hst1
        exact ⟨st.ctr, hA, Nat.le_refl _, rfl, Nat.le_refl _, _, rfl,
          mem_filter_ne_key st.store name⟩
      | none => simp at h
    | indefinite => exact acquireLoop_ok_inv name (1000 * ttl.toNat) none fuel st A st' h
    | boundedWait d =>
      exact acquireLoop_ok_inv name (1000 * ttl.toNat) (some (st.now + 1000 * d)) fuel st A st' h

theorem lock_ctr_mono (fuel : Nat) (st : LockState) (name : String) (ttl : Int)
    (w : WaitPolicy) : st.ctr ≤ (lock fuel st name ttl w).2.ctr := by
  by_cases hcond : ttl ≤ 0 ∨ name = ""
  · rw [lock_invalid fuel st name ttl w hcond]
  · simp only [lock, if_neg hcond]
    cases w with
    | noWait =>
      cases ha : attempt name (1000 * ttl.toNat) st with
      | mk o st1 =>
      cases o with
      | some tok =>
        obtain ⟨hl, hA, hst1⟩ := attempt_ok_inv name (1000 * ttl.toNat) st st1 tok ha
        subst hst1
        simp
      | none =>
        obtain ⟨hheld, hst1⟩ := attempt_none_inv name (1000 * ttl.toNat) st st1 ha
        subst hst1
        simp
    | indefinite => exact (acquireLoop_ctr_now_mono name (1000 * ttl.toNat) none fuel st).1
    | boundedWait d =>
      exact (acquireLoop_ctr_now_mono name (1000 * ttl.toNat) (some (st.now + 1000 * d)) fuel st).1

/-! ### Release lemmas -/

theorem compareAndDelete_match (s : Store) (k v : String) (t : Nat)
    (h : lookupLive s k t = some v) :
    compareAndDelete s k v t = (true, s.filter (fun e => !(e.1 == k))) := by
  simp [compareAndDelete, h]

theorem compareAndDelete_mismatch (s : Store) (k v expected : String) (t : Nat)
    (h : lookupLive s k t = some v) (hne : v ≠ expected) :
    compareAndDelete s k expected t = (false, s) := by
  simp [compareAndDelete, h, hne]

theorem compareAndDelete_absent (s : Store) (k expected : String) (t : Nat)
    (h : lookupLive s k t = none) :
    compareAndDelete s k expected t = (false, s) := by
  simp [compareAndDelete, h]

/-! ### Lemmas about races and sequences of acquisitions -/

theorem runRace_held (name : String) (ttl : Int) (now : Nat)
    (h1 : 1 ≤ ttl) (h2 : name ≠ "") :
    ∀ cs (s : Store), (lookupLive s name now).isSome = true →
    runRace name ttl now cs s = (cs.map (fun _ => LockOutcome.contention), s) := by
  intro cs
  induction cs with
  | nil => intro s h; simp [runRace]
  | cons c cs ih =>
    intro s h
    simp only [runRace]
    rw [lock_noWait_held 1 ⟨s, now, c, 0⟩ name ttl h1 h2 h]
    simp only
    rw [ih s h]
    simp

theorem runLocks_ctr_mono (fuel : Nat) :
    ∀ calls st, st.ctr ≤ (runLocks fuel calls st).2.ctr := by
  intro calls
  induction calls with
  | nil => intro st; simp [runLocks]
  | cons call rest ih =>
    intro st
    obtain ⟨n, t, w⟩ := call
    simp only [runLocks]
    cases hr : lock fuel st n t w with
    | mk r st1 =>
    have hm1 : st.ctr ≤ st1.ctr := by
      have := lock_ctr_mono fuel st n t w
      rw [hr] at this
      exact this
    have hm2 := ih st1
    cases hrr : runLocks fuel rest st1 with
    | mk rs st2 =>
    rw [hrr] at hm2
    have hm2' : st1.ctr ≤ st2.ctr := hm2
    show st.ctr ≤ st2.ctr
    omega

theorem runLocks_tokens (fuel : Nat) :
    ∀ calls st A, A ∈ okTokens (runLocks fuel calls st).1 →
    ∃ c, st.ctr ≤ c ∧ c < (runLocks fuel calls st).2.ctr ∧ A = genToken c := by
  intro calls
  induction calls with
  | nil => intro st A h; simp [runLocks, okTokens] at h
  | cons call rest ih =>
    intro st A h
    obtain ⟨n, t, w⟩ := call
    simp only [runLocks] at h ⊢
    cases hr : lock fuel st n t w with
    | mk r st1 =>
    dsimp only at h ⊢
    cases hrr : runLocks fuel rest st1 with
    | mk rs st2 =>
    dsimp only at h ⊢
    rw [hr] at h
    dsimp only at h
    rw [hrr] at h
    dsimp only at h
    have hm1 : st.ctr ≤ st1.ctr := by
      have := lock_ctr_mono fuel st n t w
      rw [hr] at this
      exact this
    have hm2 : st1.ctr ≤ st2.ctr := by
      have := runLocks_ctr_mono fuel rest st1
      rw [hrr] at this
      exact this
    have hrest : A ∈ okTokens rs →
        ∃ c, st.ctr ≤ c ∧ c < st2.ctr ∧ A = genToken c := by
      intro hA
      obtain ⟨c, hc1, hc2, hc3⟩ := ih st1 A (by rw [hrr]; exact hA)
      rw [hrr] at hc2
      exact ⟨c, by omega, hc2, hc3⟩
    cases r with
    | ok tok =>
      simp only [okTokens] at h
      rcases List.mem_cons.mp h with hA | hA
      · subst hA
        obtain ⟨_, _, c, hAtok, hc1, hc2, _⟩ := lock_ok_inv fuel st n t w A st1 hr
        exact ⟨c, hc1, by omega, hAtok⟩
      · exact hrest hA
    | contention => simp only [okTokens] at h; exact hrest h
    | invalidArg => simp only [okTokens] at h; exact hrest h
    | outOfFuel => simp only [okTokens] at h; exact hrest h

theorem runLocks_nodup (fuel : Nat) :
    ∀ calls st, (okTokens (runLocks fuel calls st).1).Nodup := by
  intro calls
  induction calls with
  | nil => intro st; simp [runLocks, okTokens]
  | cons call rest ih =>
    intro st
    obtain ⟨n, t, w⟩ := call
    simp only [runLocks]
    cases hr : lock fuel st n t w with
    | mk r st1 =>
    dsimp only
    cases hrr : runLocks fuel rest st1 with
    | mk rs st2 =>
    dsimp only
    have ihn : (okTokens rs).Nodup := by
      have := ih st1
      rw [hrr] at this
      exact this
    cases r with
    | ok tok =>
      simp only [okTokens]
      refine List.nodup_cons.mpr ⟨?_, ihn⟩
      intro hmem
      obtain ⟨c, hc1, hc2, hA⟩ := runLocks_tokens fuel rest st1 tok (by rw [hrr]; exact hmem)
      rw [hrr] at hc2
      obtain ⟨_, _, c0, hA0, h01, h02, _⟩ := lock_ok_inv fuel st n t w tok st1 hr
      have hcc : c0 = c := genToken_injective (by rw [← hA0, ← hA])
      omega
    | contention => simp only [okTokens]; exact ihn
    | invalidArg => simp only [okTokens]; exact ihn
    | outOfFuel => simp only [okTokens]; exact ihn

/-! ### Claim theorems -/

/-- C1: Mutual exclusion — for every set of N concurrent no-wait acquire
calls for the same lock name (modelled as an arbitrary interleaving of their
atomic create-if-absent operations against the shared store, each caller
with its own token generator), at most one call returns a token, and every
other caller observes the contention outcome, not a token or an error. -/
theorem C1_mutual_exclusion (name : String) (ttl : Int) (now : Nat)
    (cs : List Nat) (s : Store) (h1 : 1 ≤ ttl) (h2 : name ≠ "") :
    (runRace name ttl now cs s).1.countP isOk ≤ 1 ∧
    ∀ r ∈ (runRace name ttl now cs s).1, isOk r = false → r = .contention := by
  induction cs generalizing s with
  | nil => simp [runRace]
  | cons c cs ih =>
    cases hl : lookupLive s name now with
    | some v =>
      simp only [runRace]
      rw [lock_noWait_held 1 ⟨s, now, c, 0⟩ name ttl h1 h2 (by simp [hl])]
      dsimp only
      obtain ⟨ha, hb⟩ := ih s
      constructor
      · rw [List.countP_cons]
        simpa [isOk] using ha
      · intro r hr hnok
        rcases List.mem_cons.mp hr with rfl | hmem
        · rfl
        · exact hb r hmem hnok
    | none =>
      simp only [runRace]
      rw [lock_noWait_free 1 ⟨s, now, c, 0⟩ name ttl h1 h2 hl]
      dsimp only
      have httl : 0 < 1000 * ttl.toNat := by omega
      have hheld1 : (lookupLive
          ((name, genToken c, now + 1000 * ttl.toNat)
            :: s.filter (fun e => !(e.1 == name))) name now).isSome = true := by
        rw [lookupLive_cons_live name (genToken c) (now + 1000 * ttl.toNat) _ now (by omega)]
        rfl
      rw [runRace_held name ttl now h1 h2 cs _ hheld1]
      dsimp only
      constructor
      · have hzero : (cs.map (fun _ => LockOutcome.contention)).countP isOk = 0 := by
          rw [List.countP_eq_zero]
          intro a ha
          obtain ⟨_, _, rfl⟩ := List.mem_map.mp ha
          simp [isOk]
        rw [List.countP_cons, hzero]
        simp [isOk]
      · intro r hr hnok
        rcases List.mem_cons.mp hr with rfl | hmem
        · simp [isOk] at hnok
        · obtain ⟨_, _, rfl⟩ := List.mem_map.mp hmem
          rfl

/-- C1 witness: three concurrent no-wait acquisitions of one free lock — at
most one token is handed out and the losers see contention. -/
theorem C1_mutual_exclusion_witness :
    (runRace "L" 5 0 [0, 1, 2] []).1.countP isOk ≤ 1 ∧
    ∀ r ∈ (runRace "L" 5 0 [0, 1, 2] []).1, isOk r = false → r = .contention :=
  C1_mutual_exclusion "L" 5 0 [0, 1, 2] [] (by decide) (by decide)

/-- C2: End-to-end scenario of the demo script — from an empty backend:
acquire L with ttl=300 s returns token `genToken 0`; an immediate no-wait
acquire returns contention; a bounded-wait(1 s) acquire returns contention
after 1100 ms (~1 s); release with the wrong key returns False; release with
the correct token returns True; a fresh acquire with ttl=5 s then succeeds. -/
theorem C2_end_to_end_scenario :
    let st0 : LockState := ⟨[], 0, 0, 0⟩
    let r1 := lock 1 st0 "L" 300
    let r2 := lock 1 r1.2 "L" 5 .noWait
    let r3 := lock 100 r2.2 "L" 5 (.boundedWait 1)
    let r4 := unlock r3.2 "L" "wrong-key"
    let r5 := unlock r4.2 "L" (genToken 0)
    let r6 := lock 1 r5.2 "L" 5
    r1.1 = .ok (genToken 0) ∧
    r2.1 = .contention ∧
    r3.1 = .contention ∧ r3.2.now = 1100 ∧
    r4.1 = .pyFalse ∧
    r5.1 = .pyTrue ∧
    isOk r6.1 = true := by
  decide

/-- C3: Correct-token release succeeds and frees the lock — for any token A
returned by a successful acquire, at any time before the TTL expires,
release(name, A) returns True, the lock record is gone, and an immediately
subsequent no-wait acquire of the same name by any caller succeeds. -/
theorem C3_correct_release_frees_lock (fuel : Nat) (st : LockState)
    (name : String) (ttl : Int) (w : WaitPolicy) (A : String)
    (st' : LockState) (t : Nat)
    (hok : lock fuel st name ttl w = (.ok A, st'))
    (h1 : st'.now ≤ t) (h2 : t < st'.now + 1000 * ttl.toNat) :
    (unlock { st' with now := t } name A).1 = .pyTrue ∧
    (∀ q, lookupLive (unlock { st' with now := t } name A).2.store name q = none) ∧
    ∀ c a (ttl2 : Int), 1 ≤ ttl2 →
      (lock 1 ⟨(unlock { st' with now := t } name A).2.store, t, c, a⟩
          name ttl2 .noWait).1 = .ok (genToken c) := by
  obtain ⟨httl, hname, c0, hA, _, _, _, rest, hstore, hrest⟩ :=
    lock_ok_inv fuel st name ttl w A st' hok
  have hlook : lookupLive st'.store name t = some A := by
    rw [hstore]
    exact lookupLive_cons_live name A _ rest t (by omega)
  have hcad := compareAndDelete_match st'.store name A t hlook
  have hunlock : unlock { st' with now := t } name A
      = (.pyTrue, ⟨st'.store.filter (fun e => !(e.1 == name)), t, st'.ctr, st'.attempts⟩) := by
    simp only [unlock]
    dsimp only
    rw [hcad]
    rfl
  have hnone : ∀ q,
      lookupLive (st'.store.filter (fun e => !(e.1 == name))) name q = none :=
    fun q => lookupLive_none_of_no_key _ _ _ (mem_filter_ne_key _ _)
  refine ⟨?_, ?_, ?_⟩
  · rw [hunlock]
  · intro q
    rw [hunlock]
    exact hnone q
  · intro c a ttl2 httl2
    rw [hunlock]
    dsimp only
    rw [lock_noWait_free 1 ⟨st'.store.filter (fun e => !(e.1 == name)), t, c, a⟩
      name ttl2 httl2 hname (hnone t)]

/-- C3 witness: acquire L (ttl=5 s) from an empty store, release with the
returned token: release returns True, the record is gone at time 3, and a
fresh no-wait acquire by caller with generator state 7 succeeds. -/
theorem C3_correct_release_witness :
    (unlock ⟨[("L", genToken 0, 5000)], 0, 1, 1⟩ "L" (genToken 0)).1 = .pyTrue ∧
    lookupLive (unlock ⟨[("L", genToken 0, 5000)], 0, 1, 1⟩ "L" (genToken 0)).2.store "L" 3 = none ∧
    (lock 1 ⟨(unlock ⟨[("L", genToken 0, 5000)], 0, 1, 1⟩ "L" (genToken 0)).2.store, 0, 7, 0⟩
        "L" 1 .noWait).1 = .ok (genToken 7) :=
  ⟨(C3_correct_release_frees_lock 1 ⟨[], 0, 0, 0⟩ "L" 5 .noWait (genToken 0)
      ⟨[("L", genToken 0, 5000)], 0, 1, 1⟩ 0 (by decide) (by decide) (by decide)).1,
   (C3_correct_release_frees_lock 1 ⟨[], 0, 0, 0⟩ "L" 5 .noWait (genToken 0)
      ⟨[("L", genToken 0, 5000)], 0, 1, 1⟩ 0 (by decide) (by decide) (by decide)).2.1 3,
   (C3_correct_release_frees_lock 1 ⟨[], 0, 0, 0⟩ "L" 5 .noWait (genToken 0)
      ⟨[("L", genToken 0, 5000)], 0, 1, 1⟩ 0 (by decide) (by decide) (by decide)).2.2
     7 0 1 (by decide)⟩

/-- C4: Wrong-token release is a safe no-op — while a lock is held with
valid token A, releasing with any different token returns False, leaves the
state (store, clock, counters) unchanged, and a subsequent no-wait acquire
by another caller still fails with contention. -/
theorem C4_wrong_token_release_noop (fuel : Nat) (st : LockState)
    (name : String) (ttl : Int) (w : WaitPolicy) (A tok : String)
    (st' : LockState) (t : Nat)
    (hok : lock fuel st name ttl w = (.ok A, st'))
    (h1 : st'.now ≤ t) (h2 : t < st'.now + 1000 * ttl.toNat)
    (hne : tok ≠ A) :
    unlock { st' with now := t } name tok = (.pyFalse, { st' with now := t }) ∧
    ∀ c a (ttl2 : Int), 1 ≤ ttl2 →
      (lock 1 ⟨st'.store, t, c, a⟩ name ttl2 .noWait).1 = .contention := by
  obtain ⟨httl, hname, c0, hA, _, _, _, rest, hstore, hrest⟩ :=
    lock_ok_inv fuel st name ttl w A st' hok
  have hlook : lookupLive st'.store name t = some A := by
    rw [hstore]
    exact lookupLive_cons_live name A _ rest t (by omega)
  have hcad := compareAndDelete_mismatch st'.store name A tok t hlook (Ne.symm hne)
  constructor
  · simp only [unlock]
    dsimp only
    rw [hcad]
    rfl
  · intro c a ttl2 httl2
    rw [lock_noWait_held 1 ⟨st'.store, t, c, a⟩ name ttl2 httl2 hname (by simp [hlook])]

/-- C4 witness: with L held under token `genToken 0`, releasing with
"wrong-key" returns False and changes nothing, and a no-wait acquire by
another caller still returns contention. -/
theorem C4_wrong_token_release_witness :
    unlock ⟨[("L", genToken 0, 5000)], 0, 1, 1⟩ "L" "wrong-key"
      = (.pyFalse, ⟨[("L", genToken 0, 5000)], 0, 1, 1⟩) ∧
    (lock 1 ⟨[("L", genToken 0, 5000)], 0, 9, 0⟩ "L" 1 .noWait).1 = .contention :=
  ⟨(C4_wrong_token_release_noop 1 ⟨[], 0, 0, 0⟩ "L" 5 .noWait (genToken 0) "wrong-key"
      ⟨[("L", genToken 0, 5000)], 0, 1, 1⟩ 0 (by decide) (by decide) (by decide) (by decide)).1,
   (C4_wrong_token_release_noop 1 ⟨[], 0, 0, 0⟩ "L" 5 .noWait (genToken 0) "wrong-key"
      ⟨[("L", genToken 0, 5000)], 0, 1, 1⟩ 0 (by decide) (by decide) (by decide) (by decide)).2
     9 0 1 (by decide)⟩

/-- C5: No-wait semantics — when the named lock is already held, a no-wait
acquire returns the contention outcome with the clock unchanged (no
sleeping or retrying) and exactly one backend create-if-absent attempt
made, whatever the fuel; no error is raised. -/
theorem C5_nowait_single_attempt (fuel : Nat) (st : LockState) (name : String)
    (ttl : Int) (h1 : 1 ≤ ttl) (h2 : name ≠ "")
    (hheld : (lookupLive st.store name st.now).isSome = true) :
    lock fuel st name ttl .noWait
      = (.contention, { st with ctr := st.ctr + 1, attempts := st.attempts + 1 }) :=
  lock_noWait_held fuel st name ttl h1 h2 hheld

/-- C5 witness: a held lock, no-wait acquire — contention, same store, same
clock, exactly one more attempt. -/
theorem C5_nowait_single_attempt_witness :
    lock 3 ⟨[("L", "x", 99)], 5, 4, 9⟩ "L" 7 .noWait
      = (.contention, ⟨[("L", "x", 99)], 5, 5, 10⟩) :=
  C5_nowait_single_attempt 3 ⟨[("L", "x", 99)], 5, 4, 9⟩ "L" 7
    (by decide) (by decide) (by decide)

/-- C6: Bounded-wait deadline respected — against a lock held throughout the
wait window, `acquire(name, ttl, BoundedWait(D))` (D in seconds, polling
every `pollInterval` ms) returns the contention outcome, leaves the store
unchanged, and its elapsed time exceeds the 1000·D ms deadline by at most
one polling interval. -/
theorem C6_bounded_wait_deadline (fuel : Nat) (st : LockState) (name : String)
    (ttl : Int) (D : Nat) (h1 : 1 ≤ ttl) (h2 : name ≠ "")
    (hheld : ∀ t, t ≤ st.now + 1000 * D + pollInterval →
      (lookupLive st.store name t).isSome = true)
    (hfuel : 10 * D + 2 ≤ fuel) :
    ∃ st', lock fuel st name ttl (.boundedWait D) = (.contention, st') ∧
      st'.store = st.store ∧
      st.now + 1000 * D < st'.now ∧
      st'.now ≤ st.now + 1000 * D + pollInterval := by
  have hcond : ¬(ttl ≤ 0 ∨ name = "") := by
    push_neg
    exact ⟨by omega, h2⟩
  simp only [lock, if_neg hcond]
  exact acquireLoop_deadline_contention name (1000 * ttl.toNat) (st.now + 1000 * D)
    fuel st hheld (by omega) (by simp only [pollInterval]; omega)

/-- C6 witness: a lock held far beyond the window, bounded wait of 1 s with
fuel 12 — contention, store unchanged, elapsed in (1000, 1100] ms. -/
theorem C6_bounded_wait_witness :
    ∃ st', lock 12 ⟨[("L", "x", 1000000)], 0, 0, 0⟩ "L" 5 (.boundedWait 1)
        = (.contention, st') ∧
      st'.store = [("L", "x", 1000000)] ∧
      1000 < st'.now ∧ st'.now ≤ 1100 :=
  C6_bounded_wait_deadline 12 ⟨[("L", "x", 1000000)], 0, 0, 0⟩ "L" 5 1
    (by decide) (by decide)
    (by
      intro t ht
      have htlt : t < 1000000 := by
        simp only [pollInterval] at ht
        omega
      simp [lookupLive, List.find?, htlt])
    (by decide)

/-- C7: TTL precondition — a zero or negative ttl is rejected synchronously
as an invalid-argument caller error with the state (store, clock, attempt
counter) untouched, i.e. before any backend operation, for every fuel and
wait policy (so the rejection is never retried). -/
theorem C7_nonpositive_ttl_rejected (fuel : Nat) (st : LockState)
    (name : String) (ttl : Int) (w : WaitPolicy) (h : ttl ≤ 0) :
    lock fuel st name ttl w = (.invalidArg, st) :=
  lock_invalid fuel st name ttl w (Or.inl h)

/-- C7 witness: ttl = −3 is rejected with the state untouched. -/
theorem C7_nonpositive_ttl_witness :
    lock 5 ⟨[], 0, 0, 0⟩ "L" (-3) .noWait = (.invalidArg, ⟨[], 0, 0, 0⟩) :=
  C7_nonpositive_ttl_rejected 5 ⟨[], 0, 0, 0⟩ "L" (-3) .noWait (by decide)

/-- C8: Default wait policy — omitting the wait-policy argument is the same
call as indefinite wait, and an indefinite-wait acquire never returns the
contention outcome, however long it polls: it retries until acquired. -/
theorem C8_default_wait_indefinite (fuel : Nat) (st : LockState)
    (name : String) (ttl : Int) :
    lock fuel st name ttl = lock fuel st name ttl .indefinite ∧
    (lock fuel st name ttl).1 ≠ .contention := by
  refine ⟨rfl, ?_⟩
  by_cases hcond : ttl ≤ 0 ∨ name = ""
  · rw [lock_invalid fuel st name ttl .indefinite hcond]
    simp
  · simp only [lock, if_neg hcond]
    exact acquireLoop_indefinite_no_contention name (1000 * ttl.toNat) fuel st

/-- C9: Token uniqueness — over any sequence of lock calls (same or
different names, any wait policies), the tokens returned by the successful
acquisitions are pairwise distinct, and every returned token is a value of
the token generator alone (a function of the generator state, not of the
lock name or the clock). -/
theorem C9_token_uniqueness (fuel : Nat)
    (calls : List (String × Int × WaitPolicy)) (st : LockState) :
    (okTokens (runLocks fuel calls st).1).Nodup ∧
    ∀ A ∈ okTokens (runLocks fuel calls st).1, ∃ c, A = genToken c := by
  refine ⟨runLocks_nodup fuel calls st, ?_⟩
  intro A hA
  obtain ⟨c, _, _, hc⟩ := runLocks_tokens fuel calls st A hA
  exact ⟨c, hc⟩

/-- C10: Outcome encoding at the public interface — whenever `lock` returns
a value, it is either a truthy token string (success) or exactly the
boolean False (contention/timeout), never None; and `unlock` always returns
exactly the boolean True or the boolean False. -/
theorem C10_outcome_encoding (fuel : Nat) (st : LockState) (name : String)
    (ttl : Int) (w : WaitPolicy) (st2 : LockState) (n2 tk : String) :
    (∀ v, (lockPy fuel st name ttl w).1 = some v →
      ((∃ s, v = .pyStr s) ∧ truthy v = true) ∨ v = .pyFalse) ∧
    ((unlock st2 n2 tk).1 = .pyTrue ∨ (unlock st2 n2 tk).1 = .pyFalse) := by
  constructor
  · intro v hv
    simp only [lockPy] at hv
    cases hlk : lock fuel st name ttl w with
    | mk r st1 =>
    rw [hlk] at hv
    cases r with
    | ok tok =>
      dsimp only at hv
      injection hv with hv
      obtain ⟨_, _, c, hA, _⟩ := lock_ok_inv fuel st name ttl w tok st1 hlk
      left
      refine ⟨⟨tok, hv.symm⟩, ?_⟩
      rw [← hv]
      subst hA
      simp [truthy, genToken_ne_empty]
    | contention =>
      dsimp only at hv
      injection hv with hv
      right
      exact hv.symm
    | invalidArg => simp at hv
    | outOfFuel => simp at hv
  · simp only [unlock]
    cases hcd : compareAndDelete st2.store n2 tk st2.now with
    | mk b s1 =>
    dsimp only
    cases b
    · right; rfl
    · left; rfl

/-- C10 witness: a successful call returns the truthy token string, and a
release on an empty store returns the boolean False. -/
theorem C10_outcome_encoding_witness :
    ((∀ v, (lockPy 1 ⟨[], 0, 0, 0⟩ "L" 5 .noWait).1 = some v →
      ((∃ s, v = .pyStr s) ∧ truthy v = true) ∨ v = .pyFalse) ∧
    ((unlock ⟨[], 0, 0, 0⟩ "L" "x").1 = .pyTrue ∨
      (unlock ⟨[], 0, 0, 0⟩ "L" "x").1 = .pyFalse)) ∧
    (lockPy 1 ⟨[], 0, 0, 0⟩ "L" 5 .noWait).1 = some (.pyStr (genToken 0)) :=
  ⟨C10_outcome_encoding 1 ⟨[], 0, 0, 0⟩ "L" 5 .noWait ⟨[], 0, 0, 0⟩ "L" "x",
   by decide⟩

end Redilock
